import Mathlib

/-!
# QuestTodo — verification of the core habit-tracking logic

A shallow embedding of the non-UI core of `questtodo.py`: the weekday
schedule mask, the persistence-store operations over an in-memory model of
the two SQLite tables, the backward-walking streak computation, and the
range-statistics aggregation.

Modelling conventions:
* Python `int` is embedded as `ℤ` (bitwise operations on Python ints are
  two's-complement, matching `Int.lor` / `Int.land` / `Int.lnot` and the
  `ShiftLeft` / `ShiftRight` instances of Mathlib's `Int.Bitwise`).
* A calendar date is embedded as its proleptic-Gregorian ordinal shifted so
  that day `0` is a Monday (`date.toordinal() - 1`; `date(1,1,1)` is a
  Monday).  Python's `d.weekday()` is then `d.emod 7` (Python's `%` on a
  positive modulus agrees with `Int.emod`), and `d - timedelta(days=n)` is
  `d - n`.  Completion-record day keys, ISO `YYYY-MM-DD` strings in SQLite,
  are embedded as the same ordinals: lexicographic order on ISO strings
  coincides with date order, so the SQL range filter `day >= a AND day <= b`
  is the ordinal interval test.
* The two tables are lists of rows.  `sqlite3` specifics are embedded by
  their documented semantics: `name TEXT UNIQUE` compares names with the
  default BINARY (byte-exact) collation, a failed `INSERT`/`UPDATE` raises
  `IntegrityError` and leaves the database unchanged, and
  `ON DELETE CASCADE` (with `PRAGMA foreign_keys = ON`) removes the
  completions of a deleted activity.
* Python floats only enter in `round((done / planned) * 100)`.  Over the
  windows the program uses (`planned ≤ 30`), every case where the exact
  value of `100*done/planned` is a half-integer has `done/planned` a dyadic
  rational that is exactly representable, so the double computation is
  exact there and Python's banker's rounding of the float agrees with
  half-to-even rounding of the rational; away from half-integers the float
  error (≤ 2⁻⁴⁵ relative) cannot cross a rounding boundary because
  denominators ≤ 30 keep exact values at distance ≥ 1/60 from them unless
  equal.  `round` is therefore embedded as half-to-even rounding on `ℚ`.
-/

/-! ## Schedule mask (`mask_has_day` / `set_mask_day` / `full_week_mask`) -/

/-- `mask_has_day(mask, day_idx_0_mon)`: `((mask >> day_idx_0_mon) & 1) == 1`. -/
def mask_has_day (mask : ℤ) (day_idx_0_mon : ℕ) : Bool :=
  (mask >>> (day_idx_0_mon : ℤ)).land 1 == 1

/-- `set_mask_day(mask, day_idx_0_mon, value)`: `bit = 1 << day_idx_0_mon`;
`(mask | bit) if value else (mask & ~bit)`. -/
def set_mask_day (mask : ℤ) (day_idx_0_mon : ℕ) (value : Bool) : ℤ :=
  let bit : ℤ := (1 : ℤ) <<< (day_idx_0_mon : ℤ)
  if value then mask.lor bit else mask.land bit.lnot

/-- `full_week_mask()`: `(1 << 7) - 1  # 127`. -/
def full_week_mask : ℤ := ((1 : ℤ) <<< (7 : ℤ)) - 1

lemma nat_testBit_shiftRight_zero (n i : ℕ) :
    Nat.testBit (n >>> i) 0 = Nat.testBit n i := by
  simp [Nat.testBit_shiftRight]

lemma shiftRight_testBit_zero (m : ℤ) (i : ℕ) :
    (m >>> (i : ℤ)).testBit 0 = m.testBit i := by
  cases m with
  | ofNat n =>
    rw [show Int.ofNat n >>> (i : ℤ) = ((n >>> i : ℕ) : ℤ) from Int.shiftRight_coe_nat n i]
    show Nat.testBit (n >>> i) 0 = Nat.testBit n i
    exact nat_testBit_shiftRight_zero n i
  | negSucc n =>
    rw [Int.shiftRight_negSucc]
    show (!Nat.testBit (n >>> i) 0) = (!Nat.testBit n i)
    rw [nat_testBit_shiftRight_zero]

lemma nat_ldiff_one (k : ℕ) : Nat.ldiff 1 k = if k.testBit 0 then 0 else 1 := by
  apply Nat.eq_of_testBit_eq
  intro j
  rw [Nat.testBit_ldiff]
  rcases Nat.eq_zero_or_pos j with hj | hj
  · subst hj
    cases h : k.testBit 0 <;> simp [h]
  · have h1 : Nat.testBit 1 j = false := by
      have h2 : (1 : ℕ) = 2 ^ 0 := rfl
      rw [h2, Nat.testBit_two_pow]
      simp only [decide_eq_false_iff_not]
      omega
    cases h : k.testBit 0 <;> simp [h1]

lemma int_land_one (x : ℤ) : x.land 1 = if x.testBit 0 then 1 else 0 := by
  cases x with
  | ofNat n =>
    show ((n &&& 1 : ℕ) : ℤ) = _
    rw [Nat.and_one_is_mod]
    have : Int.testBit (Int.ofNat n) 0 = Nat.testBit n 0 := rfl
    rw [this, Nat.testBit_zero]
    rcases Nat.mod_two_eq_zero_or_one n with h | h <;> simp [h, Nat.bodd_eq_one_and_ne_zero]
  | negSucc n =>
    show ((Nat.ldiff 1 n : ℕ) : ℤ) = _
    rw [nat_ldiff_one]
    have : Int.testBit (Int.negSucc n) 0 = !(Nat.testBit n 0) := rfl
    rw [this]
    cases h : n.testBit 0 <;> simp [h]

/-- The bit-test of the source is `Int.testBit`. -/
lemma mask_has_day_eq_testBit (mask : ℤ) (i : ℕ) :
    mask_has_day mask i = mask.testBit i := by
  unfold mask_has_day
  rw [int_land_one, shiftRight_testBit_zero]
  cases mask.testBit i <;> simp

lemma int_one_shiftLeft_coe (i : ℕ) : ((1 : ℤ) <<< (i : ℤ)) = ((2 ^ i : ℕ) : ℤ) := by
  have h := Int.shiftLeft_coe_nat 1 i
  rw [show ((1 : ℕ) : ℤ) = (1 : ℤ) from rfl] at h
  rw [h, Nat.shiftLeft_eq, one_mul]

lemma testBit_bit (i j : ℕ) :
    Int.testBit ((1 : ℤ) <<< (i : ℤ)) j = decide (i = j) := by
  rw [int_one_shiftLeft_coe]
  show Nat.testBit (2 ^ i) j = decide (i = j)
  exact Nat.testBit_two_pow

/-- `set_mask_day` at the bit level: bit `i` becomes `value`, other bits kept. -/
lemma testBit_set_mask_day (mask : ℤ) (i : ℕ) (v : Bool) (j : ℕ) :
    (set_mask_day mask i v).testBit j =
      if i = j then v else mask.testBit j := by
  cases v with
  | true =>
    show (mask.lor ((1 : ℤ) <<< (i : ℤ))).testBit j = _
    rw [Int.testBit_lor, testBit_bit]
    by_cases h : i = j <;> simp [h]
  | false =>
    show (mask.land ((1 : ℤ) <<< (i : ℤ)).lnot).testBit j = _
    rw [Int.testBit_land, Int.testBit_lnot, testBit_bit]
    by_cases h : i = j <;> simp [h]

/-- **C5.** For every mask `m`, every day index `i` in `0..6`, and every
boolean `v`: `has(set(m, i, true), i)` is `true`, `has(set(m, i, false), i)`
is `false`, `set(m, i, v)` leaves every bit `j ≠ i` of `m` unchanged, and
`has(full(), i)` is `true`. -/
theorem mask_ops_correct (m : ℤ) (i : ℕ) (hi : i < 7) :
    mask_has_day (set_mask_day m i true) i = true ∧
    mask_has_day (set_mask_day m i false) i = false ∧
    (∀ (v : Bool) (j : ℕ), j ≠ i → (set_mask_day m i v).testBit j = m.testBit j) ∧
    mask_has_day full_week_mask i = true := by
  refine ⟨?_, ?_, ?_, ?_⟩
  · rw [mask_has_day_eq_testBit, testBit_set_mask_day]
    simp
  · rw [mask_has_day_eq_testBit, testBit_set_mask_day]
    simp
  · intro v j hj
    rw [testBit_set_mask_day, if_neg (fun h => hj h.symm)]
  · interval_cases i <;> decide

theorem mask_ops_correct_witness :
    mask_has_day (set_mask_day 41 3 true) 3 = true ∧
    mask_has_day (set_mask_day 41 3 false) 3 = false ∧
    (set_mask_day 41 3 true).testBit 5 = (41 : ℤ).testBit 5 ∧
    mask_has_day full_week_mask 3 = true := by
  obtain ⟨h1, h2, h3, h4⟩ := mask_ops_correct 41 3 (by decide)
  exact ⟨h1, h2, h3 true 5 (by decide), h4⟩

/-! ## Persistence store: data model

One row of the `activities` table
(`id, name, mandatory, days_mask, sort_order`) and one row of the
`completions` table (`activity_id, day, done`).  `mandatory` and `done` are
`INTEGER CHECK(... IN (0,1))` columns, embedded as `Bool`; `day` is the
date ordinal standing for the ISO string key (see the header comment). -/

structure Activity where
  id : ℤ
  name : String
  mandatory : Bool
  days_mask : ℤ
  sort_order : ℤ
deriving DecidableEq, Repr

structure Completion where
  activity_id : ℤ
  day : ℤ
  done : Bool
deriving DecidableEq, Repr

structure DB where
  activities : List Activity
  completions : List Completion
deriving DecidableEq, Repr

/-- Result of a store command that validates its input
(`tuple[bool, str]` in the source, plus the resulting database state). -/
structure CmdResult where
  db : DB
  ok : Bool
  err : String
deriving DecidableEq, Repr

/-- Python's `str.strip()`: remove leading and trailing whitespace.
(Embedded directly on the character list so that it evaluates by kernel
reduction; `String.trim` of the standard library computes the same string
but through `Substring` helpers that do not reduce definitionally.) -/
def strip (s : String) : String :=
  ⟨((s.data.dropWhile Char.isWhitespace).reverse.dropWhile Char.isWhitespace).reverse⟩

/-- Python's `str.lower()` on ASCII names, as the spec's case-insensitive
comparison uses it (character-wise lowering; `String.toLower` computes the
same string but does not reduce definitionally). -/
def lower (s : String) : String :=
  ⟨s.data.map Char.toLower⟩

/-- `db_any_mandatory_exists()`:
`SELECT 1 FROM activities WHERE mandatory=1 LIMIT 1` is not `None`. -/
def db_any_mandatory_exists (db : DB) : Bool :=
  db.activities.any (fun a => a.mandatory)

/-- Next `AUTOINCREMENT` rowid for the `activities` table. -/
def next_id (db : DB) : ℤ :=
  (db.activities.foldl (fun m a => max m a.id) 0) + 1

/-- `db_add_activity(name)`: strips the name; rejects an empty result with
`"empty"`; computes `COALESCE(MAX(sort_order), 0)` and inserts
`(name, 0, full_week_mask(), max_order + 1)`.  The `INSERT` raises
`sqlite3.IntegrityError`, caught and reported as `"exists"`, exactly when
the `name TEXT UNIQUE` constraint is violated, i.e. when some stored row
has a byte-identical name (SQLite's default BINARY collation); the failed
statement leaves the table unchanged. -/
def db_add_activity (db : DB) (name : String) : CmdResult :=
  let name := strip name
  if name = "" then ⟨db, false, "empty"⟩
  else if db.activities.any (fun a => a.name = name) then ⟨db, false, "exists"⟩
  else
    let max_order := db.activities.foldl (fun m a => max m a.sort_order) 0
    ⟨⟨db.activities ++ [⟨next_id db, name, false, full_week_mask, max_order + 1⟩],
      db.completions⟩, true, ""⟩

/-- `db_rename_activity(activity_id, new_name)`: strips the name; rejects an
empty result with `"empty"`; runs
`UPDATE activities SET name=? WHERE id=?`.  The `UPDATE` raises
`IntegrityError` (reported as `"exists"`, statement rolled back) exactly
when it would write a name held by a different row: some row matches the
`id` and another row already has the byte-identical name. -/
def db_rename_activity (db : DB) (activity_id : ℤ) (new_name : String) : CmdResult :=
  let new_name := strip new_name
  if new_name = "" then ⟨db, false, "empty"⟩
  else if db.activities.any (fun a => a.id = activity_id) &&
          db.activities.any (fun a => a.id ≠ activity_id && a.name = new_name) then
    ⟨db, false, "exists"⟩
  else
    ⟨⟨db.activities.map (fun a =>
        if a.id = activity_id then { a with name := new_name } else a),
      db.completions⟩, true, ""⟩

/-- `db_delete_activity(activity_id)`:
`DELETE FROM activities WHERE id=?`; the schema's
`FOREIGN KEY (activity_id) REFERENCES activities(id) ON DELETE CASCADE`
(with `PRAGMA foreign_keys = ON` set on every connection) removes the
deleted activity's completion rows in the same statement. -/
def db_delete_activity (db : DB) (activity_id : ℤ) : DB :=
  ⟨db.activities.filter (fun a => a.id ≠ activity_id),
   db.completions.filter (fun c => c.activity_id ≠ activity_id)⟩

/-- `db_get_done(activity_id, day_iso)`: the stored `done` value, `0` when
no row exists for the key. -/
def db_get_done (db : DB) (activity_id : ℤ) (day : ℤ) : ℕ :=
  match db.completions.find? (fun c => c.activity_id == activity_id && c.day == day) with
  | some c => if c.done then 1 else 0
  | none => 0

/-- `db_set_done(activity_id, day_iso, done)`: upsert
(`INSERT ... ON CONFLICT(activity_id, day) DO UPDATE SET done=excluded.done`). -/
def db_set_done (db : DB) (activity_id : ℤ) (day : ℤ) (done : Bool) : DB :=
  if db.completions.any (fun c => c.activity_id = activity_id && c.day = day) then
    ⟨db.activities,
     db.completions.map (fun c =>
       if c.activity_id = activity_id && c.day = day then { c with done := done } else c)⟩
  else
    ⟨db.activities, db.completions ++ [⟨activity_id, day, done⟩]⟩

/-- `db_bulk_done_map(start_iso, end_iso)`: the completion rows with
`day >= start AND day <= end` (the lexicographic string range on ISO keys,
which is the date interval), as the lookup the callers key by
`(activity_id, day)`. -/
def db_bulk_done_map (db : DB) (start_day end_day : ℤ) : List Completion :=
  db.completions.filter (fun c => start_day ≤ c.day && c.day ≤ end_day)

/-! ## C1 / C10 / C9: store-command behaviour -/

/-- A store holding one activity named `"Run"`. -/
def dupDB : DB := ⟨[⟨1, "Run", false, 127, 1⟩], []⟩

/-- **C1 counterexample.** `"run"` equals the stored `"Run"` after trimming
and case-folding but is not byte-equal, yet `add_activity` succeeds: the
`name TEXT UNIQUE` constraint compares with the default BINARY collation,
so no `IntegrityError` (`DuplicateName`) is raised. -/
theorem add_activity_not_case_insensitive :
    lower (strip "Run") = lower (strip "run") ∧
    strip "Run" ≠ strip "run" ∧
    (db_add_activity dupDB "run").ok = true ∧
    (db_add_activity dupDB "run").err = "" := by
  refine ⟨by decide, by decide, ?_, ?_⟩ <;> rfl

/-- **C1 (amended).** Duplicate detection is byte-exact: `add_activity`
fails with `DuplicateName` (`"exists"`) exactly on a trimmed name that is
byte-identical to a stored name, and the failed call returns the store
unchanged (in particular every `sort_order` is unchanged); a name whose
trimmed form is empty fails with `EmptyName` (`"empty"`). -/
theorem add_activity_rejects (db : DB) (name : String) :
    (strip name ≠ "" → (∃ a ∈ db.activities, a.name = strip name) →
      db_add_activity db name = ⟨db, false, "exists"⟩) ∧
    (strip name = "" → db_add_activity db name = ⟨db, false, "empty"⟩) := by
  constructor
  · intro hne hdup
    have hany : db.activities.any (fun a => a.name = strip name) = true := by
      rw [List.any_eq_true]
      obtain ⟨a, ha, hn⟩ := hdup
      exact ⟨a, ha, by simp [hn]⟩
    simp only [db_add_activity]
    rw [if_neg hne, if_pos hany]
  · intro he
    simp only [db_add_activity]
    rw [if_pos he]

theorem add_activity_rejects_witness :
    db_add_activity dupDB " Run  " = ⟨dupDB, false, "exists"⟩ ∧
    db_add_activity dupDB "   " = ⟨dupDB, false, "empty"⟩ :=
  ⟨(add_activity_rejects dupDB " Run  ").1 (by decide) (by decide),
   (add_activity_rejects dupDB "   ").2 (by decide)⟩

/-- **C10.** `rename_activity` with an id that identifies no stored row and
a non-empty, non-duplicate name reports success (`(True, "")`): the
`UPDATE ... WHERE id=?` matches no row, so nothing is written and no
constraint can fire — and the store (activities and completions) is
returned unchanged. -/
theorem rename_unknown_id_succeeds_unchanged (db : DB) (aid : ℤ) (name : String)
    (hne : strip name ≠ "")
    (_hdup : ∀ a ∈ db.activities, a.name ≠ strip name)
    (hid : ∀ a ∈ db.activities, a.id ≠ aid) :
    db_rename_activity db aid name = ⟨db, true, ""⟩ := by
  have h1 : db.activities.any (fun a => a.id = aid) = false := by
    rw [Bool.eq_false_iff]
    intro h
    rw [List.any_eq_true] at h
    obtain ⟨a, ha, h⟩ := h
    exact hid a ha (by simpa using h)
  have h2 : db.activities.map (fun a =>
      if a.id = aid then { a with name := strip name } else a) = db.activities := by
    have := List.map_congr_left (l := db.activities)
      (f := fun a => if a.id = aid then { a with name := strip name } else a) (g := id)
      (fun a ha => by simp [hid a ha])
    simpa using this
  simp only [db_rename_activity]
  rw [if_neg hne, if_neg (by simp [h1]), h2]

/-- A store with one activity (id 1) and one of its completions. -/
def renameDB : DB := ⟨[⟨1, "Run", true, 127, 1⟩], [⟨1, 10, true⟩]⟩

theorem rename_unknown_id_succeeds_unchanged_witness :
    db_rename_activity renameDB 99 "Walk" = ⟨renameDB, true, ""⟩ :=
  rename_unknown_id_succeeds_unchanged renameDB 99 "Walk"
    (by decide) (by decide) (by decide)

/-- **C9.** After `delete_activity(id)`, no completion keyed by that id is
queryable: for every range, `bulk_completions` over the post-delete store
contains no record whose `activity_id` equals the deleted id (the
`ON DELETE CASCADE` foreign key removed them with the activity row). -/
theorem delete_leaves_no_orphans (db : DB) (aid lo hi : ℤ) (c : Completion)
    (hc : c ∈ db_bulk_done_map (db_delete_activity db aid) lo hi) :
    c.activity_id ≠ aid := by
  simp only [db_bulk_done_map, db_delete_activity, List.mem_filter] at hc
  have := hc.1
  simp only [List.mem_filter] at this
  simpa using this.2

/-- A store with two activities and one completion for each. -/
def cascadeDB : DB :=
  ⟨[⟨1, "A", false, 127, 1⟩, ⟨2, "B", false, 127, 2⟩],
   [⟨1, 10, true⟩, ⟨2, 10, true⟩]⟩

theorem delete_leaves_no_orphans_witness :
    (⟨2, 10, true⟩ : Completion).activity_id ≠ 1 :=
  delete_leaves_no_orphans cascadeDB 1 0 20 ⟨2, 10, true⟩ (by decide)

/-! ## Streak engine (`monday` / `day_is_success_for_streak` / `calc_streak_upto`) -/

/-- `monday(d) = d - timedelta(days=d.weekday())`: the Monday of `d`'s week
(`d.weekday()` is `d % 7` under the day-ordinal embedding, Monday = 0). -/
def monday (d : ℤ) : ℤ := d - d.emod 7

/-- `day_is_success_for_streak(day_)`: collect the ids of mandatory
activities whose mask includes the weekday, and require a stored `done=1`
completion for each (`all` of an empty collection is `True`, covering the
source's early `return True`). -/
def day_is_success_for_streak (db : DB) (day : ℤ) : Bool :=
  let day_idx := (day.emod 7).toNat
  let required := (db.activities.filter
    (fun a => a.mandatory && mask_has_day a.days_mask day_idx)).map (fun a => a.id)
  required.all (fun a_id => db_get_done db a_id day == 1)

/-- Why the walk of `calc_streak_upto` ended. -/
inductive StopReason where
  | overBudget
  | capReached
  | fuelOut
deriving DecidableEq, Repr

/-- Observable outcome of the walk loop: the returned `streak`, the number
of loop iterations executed (`steps`, one per day examined), why the loop
ended, and the day examined in the final iteration. -/
structure WalkOut where
  streak : ℕ
  steps : ℕ
  reason : StopReason
  stopDay : ℤ
deriving DecidableEq, Repr

/-- The `while True` loop of `calc_streak_upto`, one constructor application
per iteration, instrumented with `steps`/`reason`/`stopDay`.  State:
current day `d`, `current_week`, `misses`, `streak` (`misses` is a Python
int compared against `allowed`; `streak` counts days).  The loop body is a
line-for-line transcription: week-boundary reset, success/miss evaluation,
the `misses > allowed` break before the forgiven increment, then `d -= 1`
and the `streak > 3650` break.  `fuel` bounds the recursion; the loop's own
guard makes any `fuel ≥ 3651 - streak` equivalent (proved below), so the
top-level entry uses `fuel = 3651`. -/
def streakWalk (success : ℤ → Bool) (allowed : ℤ) :
    ℕ → ℤ → ℤ → ℤ → ℕ → ℕ → WalkOut
  | 0, d, _, _, streak, steps => ⟨streak, steps, .fuelOut, d⟩
  | fuel + 1, d, current_week, misses, streak, steps =>
    let w := monday d
    let cw := if w ≠ current_week then w else current_week
    let m := if w ≠ current_week then 0 else misses
    if success d then
      if streak + 1 > 3650 then ⟨streak + 1, steps + 1, .capReached, d⟩
      else streakWalk success allowed fuel (d - 1) cw m (streak + 1) (steps + 1)
    else if m + 1 > allowed then ⟨streak, steps + 1, .overBudget, d⟩
    else if streak + 1 > 3650 then ⟨streak + 1, steps + 1, .capReached, d⟩
    else streakWalk success allowed fuel (d - 1) cw (m + 1) (streak + 1) (steps + 1)

/-- The walk of `calc_streak_upto(today, allowed_misses_per_week)` from its
initial state (`streak = 0`, `d = today`, `current_week = monday(today)`,
`misses = 0`). -/
def calcWalk (db : DB) (today : ℤ) (allowed : ℤ) : WalkOut :=
  streakWalk (day_is_success_for_streak db) allowed 3651 today (monday today) 0 0 0

/-- `calc_streak_upto(today, allowed_misses_per_week)`: `0` when no
mandatory activity exists, otherwise the streak computed by the walk. -/
def calc_streak_upto (db : DB) (today : ℤ) (allowed : ℤ) : ℕ :=
  if db_any_mandatory_exists db then (calcWalk db today allowed).streak else 0

/-- **C6.** `calc_streak_upto` returns `0` whenever no stored activity has
the mandatory flag set, for every completion history and reference date. -/
theorem calc_streak_zero_without_mandatory (db : DB) (today allowed : ℤ)
    (h : ∀ a ∈ db.activities, a.mandatory = false) :
    calc_streak_upto db today allowed = 0 := by
  have hm : db_any_mandatory_exists db = false := by
    rw [Bool.eq_false_iff]
    intro hx
    rw [db_any_mandatory_exists, List.any_eq_true] at hx
    obtain ⟨a, ha, hx⟩ := hx
    rw [h a ha] at hx
    exact Bool.false_ne_true hx
  rw [calc_streak_upto, hm]
  rfl

/-- A store with one non-mandatory activity and a fully `done` history. -/
def lazyDB : DB := ⟨[⟨1, "Read", false, 127, 1⟩], [⟨1, 20000, true⟩, ⟨1, 20001, true⟩]⟩

theorem calc_streak_zero_without_mandatory_witness :
    calc_streak_upto lazyDB 20001 1 = 0 :=
  calc_streak_zero_without_mandatory lazyDB 20001 1 (by decide)

/-! ## C2 / C4: behaviour and termination of the streak walk -/

lemma streakWalk_steps_le (success : ℤ → Bool) (allowed : ℤ) :
    ∀ (fuel : ℕ) (d cw m : ℤ) (s st : ℕ),
      (streakWalk success allowed fuel d cw m s st).steps ≤ st + fuel := by
  intro fuel
  induction fuel with
  | zero => intro d cw m s st; simp [streakWalk]
  | succ k ih =>
    intro d cw m s st
    simp only [streakWalk]
    by_cases h1 : success d = true <;> simp only [h1, if_true, if_false, Bool.false_eq_true]
    · by_cases h2 : s + 1 > 3650 <;> simp only [h2, if_true, if_false]
      · omega
      · have := ih (d - 1) (if monday d ≠ cw then monday d else cw)
          (if monday d ≠ cw then 0 else m) (s + 1) (st + 1)
        omega
    · by_cases h2 : (if monday d ≠ cw then 0 else m) + 1 > allowed <;>
        simp only [h2, if_true, if_false]
      · omega
      · by_cases h3 : s + 1 > 3650 <;> simp only [h3, if_true, if_false]
        · omega
        · have := ih (d - 1) (if monday d ≠ cw then monday d else cw)
            ((if monday d ≠ cw then 0 else m) + 1) (s + 1) (st + 1)
          omega

lemma streakWalk_no_fuelOut (success : ℤ → Bool) (allowed : ℤ) :
    ∀ (fuel : ℕ) (d cw m : ℤ) (s st : ℕ), s ≤ 3650 → 3651 ≤ s + fuel →
      (streakWalk success allowed fuel d cw m s st).reason ≠ .fuelOut := by
  intro fuel
  induction fuel with
  | zero => intro d cw m s st hs hf; omega
  | succ k ih =>
    intro d cw m s st hs hf
    simp only [streakWalk]
    by_cases h1 : success d = true <;> simp only [h1, if_true, if_false, Bool.false_eq_true]
    · by_cases h2 : s + 1 > 3650 <;> simp only [h2, if_true, if_false]
      · simp
      · exact ih (d - 1) _ _ (s + 1) (st + 1) (by omega) (by omega)
    · by_cases h2 : (if monday d ≠ cw then 0 else m) + 1 > allowed <;>
        simp only [h2, if_true, if_false]
      · simp
      · by_cases h3 : s + 1 > 3650 <;> simp only [h3, if_true, if_false]
        · simp
        · exact ih (d - 1) _ _ (s + 1) (st + 1) (by omega) (by omega)

lemma streakWalk_fuel_irrelevant (success : ℤ → Bool) (allowed : ℤ) :
    ∀ (f1 f2 : ℕ) (d cw m : ℤ) (s st : ℕ), s ≤ 3650 → 3651 ≤ s + f1 → 3651 ≤ s + f2 →
      streakWalk success allowed f1 d cw m s st =
        streakWalk success allowed f2 d cw m s st := by
  intro f1
  induction f1 with
  | zero => intro f2 d cw m s st hs h1 h2; omega
  | succ k1 ih =>
    intro f2 d cw m s st hs h1 h2
    obtain ⟨k2, rfl⟩ : ∃ k2, f2 = k2 + 1 := ⟨f2 - 1, by omega⟩
    simp only [streakWalk]
    by_cases hb1 : success d = true <;> simp only [hb1, if_true, if_false, Bool.false_eq_true]
    · by_cases hb2 : s + 1 > 3650 <;> simp only [hb2, if_true, if_false]
      exact ih k2 (d - 1) _ _ (s + 1) (st + 1) (by omega) (by omega) (by omega)
    · by_cases hb2 : (if monday d ≠ cw then 0 else m) + 1 > allowed <;>
        simp only [hb2, if_true, if_false]
      by_cases hb3 : s + 1 > 3650 <;> simp only [hb3, if_true, if_false]
      exact ih k2 (d - 1) _ _ (s + 1) (st + 1) (by omega) (by omega) (by omega)

/-- When the walk stops because the miss budget is exceeded, the streak it
returns counts one per day examined strictly before the stopping day:
`streak_out - streak_in = day_in - stopDay`. -/
lemma streakWalk_overBudget_count (success : ℤ → Bool) (allowed : ℤ) :
    ∀ (fuel : ℕ) (d cw m : ℤ) (s st : ℕ),
      (streakWalk success allowed fuel d cw m s st).reason = .overBudget →
      ((streakWalk success allowed fuel d cw m s st).streak : ℤ) +
        (streakWalk success allowed fuel d cw m s st).stopDay = (s : ℤ) + d := by
  intro fuel
  induction fuel with
  | zero => intro d cw m s st h; simp [streakWalk] at h
  | succ k ih =>
    intro d cw m s st
    simp only [streakWalk]
    by_cases hb1 : success d = true <;> simp only [hb1, if_true, if_false, Bool.false_eq_true]
    · by_cases hb2 : s + 1 > 3650 <;> simp only [hb2, if_true, if_false]
      · intro h; simp at h
      · intro h
        have := ih (d - 1) (if monday d ≠ cw then monday d else cw)
          (if monday d ≠ cw then 0 else m) (s + 1) (st + 1) h
        push_cast at this ⊢
        omega
    · by_cases hb2 : (if monday d ≠ cw then 0 else m) + 1 > allowed <;>
        simp only [hb2, if_true, if_false]
      · intro _; simp
      · by_cases hb3 : s + 1 > 3650 <;> simp only [hb3, if_true, if_false]
        · intro h; simp at h
        · intro h
          have := ih (d - 1) (if monday d ≠ cw then monday d else cw)
            ((if monday d ≠ cw then 0 else m) + 1) (s + 1) (st + 1) h
          push_cast at this ⊢
          omega

/-- **C2.** The walk of `calc_streak_upto`: (1) crossing into a different
Monday-aligned week resets the per-week miss counter to 0; (2) an
unsuccessful day whose miss count stays within `allowed_misses_per_week`
still increments the streak (a forgiven miss); (3) the first unsuccessful
day whose miss count exceeds the budget terminates the walk without
incrementing the streak; (4) so when the walk ends by exceeding the budget,
the returned streak counts exactly the days strictly after that over-budget
day up to the reference date. -/
theorem streak_walk_semantics (success : ℤ → Bool) (allowed : ℤ) :
    (∀ (fuel : ℕ) (d cw m : ℤ) (s st : ℕ), monday d ≠ cw →
      streakWalk success allowed (fuel + 1) d cw m s st =
        streakWalk success allowed (fuel + 1) d (monday d) 0 s st) ∧
    (∀ (fuel : ℕ) (d m : ℤ) (s st : ℕ), success d = false →
      m + 1 ≤ allowed → s + 1 ≤ 3650 →
      streakWalk success allowed (fuel + 1) d (monday d) m s st =
        streakWalk success allowed fuel (d - 1) (monday d) (m + 1) (s + 1) (st + 1)) ∧
    (∀ (fuel : ℕ) (d m : ℤ) (s st : ℕ), success d = false → allowed < m + 1 →
      streakWalk success allowed (fuel + 1) d (monday d) m s st =
        ⟨s, st + 1, .overBudget, d⟩) ∧
    (∀ (db : DB) (today al : ℤ), (calcWalk db today al).reason = .overBudget →
      ((calcWalk db today al).streak : ℤ) = today - (calcWalk db today al).stopDay) := by
  refine ⟨?_, ?_, ?_, ?_⟩
  · intro fuel d cw m s st hw
    simp only [streakWalk]
    simp [hw]
  · intro fuel d m s st hs hm hcap
    have h1 : ¬ (monday d ≠ monday d) := by simp
    have h2 : ¬ (m + 1 > allowed) := by omega
    have h3 : ¬ (s + 1 > 3650) := by omega
    simp only [streakWalk, hs, Bool.false_eq_true, if_false, h1, h2, h3, if_true]
  · intro fuel d m s st hs hm
    have h1 : ¬ (monday d ≠ monday d) := by simp
    have h2 : m + 1 > allowed := hm
    simp only [streakWalk, hs, Bool.false_eq_true, if_false, h1, h2, if_true]
  · intro db today al h
    have := streakWalk_overBudget_count (day_is_success_for_streak db) al
      3651 today (monday today) 0 0 0 h
    unfold calcWalk at *
    omega

/-- A store with one mandatory everyday activity and no completions. -/
def gymDB : DB := ⟨[⟨1, "Gym", true, 127, 1⟩], []⟩

theorem streak_walk_semantics_witness :
    (streakWalk (fun _ => true) 1 1 8 0 0 0 0 =
      streakWalk (fun _ => true) 1 1 8 (monday 8) 0 0 0) ∧
    (streakWalk (fun _ => false) 1 1 3 (monday 3) 0 0 0 =
      streakWalk (fun _ => false) 1 0 2 (monday 3) 1 1 1) ∧
    (streakWalk (fun _ => false) 1 1 3 (monday 3) 1 5 9 = ⟨5, 10, .overBudget, 3⟩) ∧
    (((calcWalk gymDB 13 1).streak : ℤ) = 13 - (calcWalk gymDB 13 1).stopDay) := by
  obtain ⟨h1, h2, h3, h4⟩ := streak_walk_semantics (fun _ => false) 1
  refine ⟨?_, ?_, ?_, ?_⟩
  · exact (streak_walk_semantics (fun _ => true) 1).1 0 8 0 0 0 0 (by decide)
  · exact h2 0 3 0 0 0 rfl (by omega) (by omega)
  · exact h3 0 3 1 5 9 rfl (by omega)
  · exact h4 gymDB 13 1 (by rfl)

/-- All-success closed form: with every day successful the walk runs until
the `streak > 3650` cap, executing one iteration per remaining fuel unit. -/
lemma streakWalk_all_success (success : ℤ → Bool) (allowed : ℤ)
    (hs : ∀ x, success x = true) :
    ∀ (k : ℕ) (d cw m : ℤ) (s st : ℕ), s + k = 3650 →
      streakWalk success allowed (k + 1) d cw m s st =
        ⟨3651, st + k + 1, .capReached, d - (k : ℤ)⟩ := by
  intro k
  induction k with
  | zero =>
    intro d cw m s st hsk
    have hs0 : s = 3650 := by omega
    subst hs0
    simp [streakWalk, hs d]
  | succ k ih =>
    intro d cw m s st hsk
    have h3 : ¬ (s + 1 > 3650) := by omega
    have key := ih (d - 1) (if monday d ≠ cw then monday d else cw)
      (if monday d ≠ cw then 0 else m) (s + 1) (st + 1) (by omega)
    obtain ⟨j, hj⟩ : ∃ j, j = k + 1 := ⟨k + 1, rfl⟩
    rw [← hj] at key ⊢
    simp only [streakWalk, hs d, if_true, h3, if_false]
    rw [key, hj]
    have e1 : st + 1 + k + 1 = st + (k + 1) + 1 := by omega
    have e2 : d - 1 - (k : ℤ) = d - ((k + 1 : ℕ) : ℤ) := by push_cast; ring
    rw [e1, e2]

/-- A store whose single mandatory activity is scheduled on no weekday:
every day is a vacuous success. -/
def capDB : DB := ⟨[⟨1, "A", true, 0, 1⟩], []⟩

lemma capDB_all_success : ∀ d, day_is_success_for_streak capDB d = true := by
  intro d
  have hm : mask_has_day 0 ((d.emod 7).toNat) = false := by
    rw [mask_has_day_eq_testBit]
    show Nat.testBit 0 _ = false
    exact Nat.zero_testBit _
  simp [day_is_success_for_streak, capDB, hm]

/-- **C4 counterexample.** With every day successful, the walk executes
3651 iterations (examines 3651 days) before the `streak > 3650` cap fires
— one more than the claimed bound of 3650 — and returns streak 3651. -/
theorem calc_streak_walk_runs_3651_steps :
    (calcWalk capDB 20000 1).steps = 3651 ∧
    3650 < (calcWalk capDB 20000 1).steps ∧
    calc_streak_upto capDB 20000 1 = 3651 := by
  have hc : calcWalk capDB 20000 1 = ⟨3651, 3651, .capReached, 16350⟩ := by
    unfold calcWalk
    rw [show (3651 : ℕ) = 3650 + 1 from rfl,
      streakWalk_all_success _ 1 capDB_all_success 3650 20000 (monday 20000) 0 0 0 rfl]
    norm_num
  refine ⟨by rw [hc], by rw [hc]; decide, ?_⟩
  rw [calc_streak_upto, if_pos (by rfl), hc]

/-- **C4 (amended).** `calc_streak_upto` terminates for every store and
reference date: the walk never exhausts its fuel (its own stop conditions
fire first), it executes at most 3651 iterations — so it examines at most
3651 days, not 3650 as stated: the `streak > 3650` check runs after the
increment, allowing a 3651st iteration — and any larger fuel bound yields
the identical outcome. -/
theorem calc_streak_terminates (db : DB) (today allowed : ℤ) :
    (calcWalk db today allowed).reason ≠ .fuelOut ∧
    (calcWalk db today allowed).steps ≤ 3651 ∧
    ∀ fuel, 3651 ≤ fuel →
      streakWalk (day_is_success_for_streak db) allowed fuel today (monday today) 0 0 0 =
        calcWalk db today allowed := by
  refine ⟨?_, ?_, ?_⟩
  · exact streakWalk_no_fuelOut _ _ 3651 today (monday today) 0 0 0 (by omega) (by omega)
  · have h := streakWalk_steps_le (day_is_success_for_streak db) allowed
      3651 today (monday today) 0 0 0
    unfold calcWalk
    omega
  · intro fuel hf
    exact streakWalk_fuel_irrelevant _ _ fuel 3651 today (monday today) 0 0 0
      (by omega) (by omega) (by omega)

theorem calc_streak_terminates_witness :
    streakWalk (day_is_success_for_streak gymDB) 1 5000 13 (monday 13) 0 0 0 =
      calcWalk gymDB 13 1 :=
  (calc_streak_terminates gymDB 13 1).2.2 5000 (by omega)

/-! ## C3: startup validation (`ensure_db_ok_or_rebuild`) -/

/-- State of the data directory as `ensure_db_ok_or_rebuild` observes it:
the content of the store file at `DB_PATH` (`none` when absent) and the
archived files (name, content). -/
structure Fs where
  dbFile : Option String
  archived : List (String × String)
deriving DecidableEq, Repr

/-- The archival filename `f"questodo_CORRUPTED_{ts}.db"`. -/
def corrupted_name (ts : String) : String :=
  "questodo_CORRUPTED_" ++ ts ++ ".db"

/-- `ensure_db_ok_or_rebuild()`: return if the store file is absent or its
`PRAGMA integrity_check` passes; otherwise `os.rename` it to the
timestamped archival name, and — if the rename raises — fall back to
`os.remove` (a raising remove is swallowed, leaving the file in place).
Environment effects are oracles: `integrity_ok` is the check's outcome,
`ts` the `datetime.now()` timestamp string, `rename_fails` / `remove_fails`
whether the respective `os` call raises. -/
def ensure_db_ok_or_rebuild (integrity_ok : String → Bool) (ts : String)
    (rename_fails remove_fails : Bool) (fs : Fs) : Fs :=
  match fs.dbFile with
  | none => fs
  | some content =>
    if integrity_ok content then fs
    else if !rename_fails then
      ⟨none, fs.archived ++ [(corrupted_name ts, content)]⟩
    else if !remove_fails then
      ⟨none, fs.archived⟩
    else
      fs

/-- **C3 counterexample.** When validation fails and the rename raises, the
store file is `os.remove`d: afterwards it is neither at `DB_PATH` nor among
the archived files — its contents are not preserved on disk, contradicting
"the file is never deleted". -/
theorem store_corrupt_file_can_be_deleted :
    ensure_db_ok_or_rebuild (fun _ => false) "20250101_120000" true false
      ⟨some "garbage", []⟩ = ⟨none, []⟩ := by
  rfl

/-- **C3 (amended).** When startup validation of an existing store file
fails, the file is renamed to the timestamped archival name
`questodo_CORRUPTED_<ts>.db` (contents preserved) provided the rename
succeeds; if the rename raises, the file is instead deleted when possible,
and left in place only if the deletion also raises.  The application then
proceeds (`db_init` creates a fresh store). -/
theorem store_corrupt_archival (integrity_ok : String → Bool) (ts : String)
    (rename_fails remove_fails : Bool) (fs : Fs) (content : String)
    (hf : fs.dbFile = some content) (hbad : integrity_ok content = false) :
    (rename_fails = false →
      ensure_db_ok_or_rebuild integrity_ok ts rename_fails remove_fails fs =
        ⟨none, fs.archived ++ [(corrupted_name ts, content)]⟩) ∧
    (rename_fails = true → remove_fails = false →
      ensure_db_ok_or_rebuild integrity_ok ts rename_fails remove_fails fs =
        ⟨none, fs.archived⟩) ∧
    (rename_fails = true → remove_fails = true →
      ensure_db_ok_or_rebuild integrity_ok ts rename_fails remove_fails fs = fs) := by
  refine ⟨fun h1 => ?_, fun h1 h2 => ?_, fun h1 h2 => ?_⟩ <;>
    subst h1 <;> simp [ensure_db_ok_or_rebuild, hf, hbad]
  · subst h2; simp
  · subst h2; simp

theorem store_corrupt_archival_witness :
    ensure_db_ok_or_rebuild (fun _ => false) "20250101_120000" false false
      ⟨some "bad", []⟩ =
      ⟨none, [("questodo_CORRUPTED_20250101_120000.db", "bad")]⟩ := by
  have h := (store_corrupt_archival (fun _ => false) "20250101_120000" false false
    ⟨some "bad", []⟩ "bad" rfl rfl).1 rfl
  simpa [corrupted_name] using h

/-! ## Statistics aggregator (`StatsTab._calc_range_stats` / `load_data`) -/

/-- Python's banker's rounding (`round` / round-half-to-even), on the exact
rational value (see the header comment for why this matches the float
computation on the program's ranges). -/
def pyRound (q : ℚ) : ℤ :=
  let f := ⌊q⌋
  let r := q - (f : ℚ)
  if r < 1 / 2 then f
  else if 1 / 2 < r then f + 1
  else if f % 2 = 0 then f else f + 1

/-- `int(round((done / planned) * 100)) if planned else 0`
(the percentage cell of `StatsTab.load_data`). -/
def stats_pct (done planned : ℕ) : ℤ :=
  if planned ≠ 0 then pyRound ((done : ℚ) / (planned : ℚ) * 100) else 0

/-- `daterange(d1, d2)`: the days from `d1` to `d2` inclusive (empty when
`d2 < d1`). -/
def daterange_list (d1 d2 : ℤ) : List ℤ :=
  (List.range (d2 + 1 - d1).toNat).map (fun i => d1 + (i : ℤ))

/-- `done_map.get((a_id, d.isoformat()), 0)`: lookup in the bulk map
(rows keyed by `(activity_id, day)`; the table's primary key makes the key
unique, so the first match is the dict entry). -/
def done_map_get (dm : List Completion) (a_id d : ℤ) : ℕ :=
  match dm.find? (fun c => c.activity_id == a_id && c.day == d) with
  | some c => if c.done then 1 else 0
  | none => 0

/-- One iteration of the inner day loop of `_calc_range_stats`, on the
state `(planned, done, day_done)`: a scheduled day increments `planned`,
and if its completion is recorded done it increments `done` and
`day_done[idx]`. -/
def stat_day_step (dm : List Completion) (a_id mask : ℤ)
    (acc : ℕ × ℕ × List ℕ) (d : ℤ) : ℕ × ℕ × List ℕ :=
  let idx := (d.emod 7).toNat
  if mask_has_day mask idx then
    if done_map_get dm a_id d == 1 then
      (acc.1 + 1, acc.2.1 + 1, acc.2.2.set idx (acc.2.2.getD idx 0 + 1))
    else (acc.1 + 1, acc.2.1, acc.2.2)
  else acc

/-- One iteration of the outer activity loop of `_calc_range_stats`:
run the day loop from `(0, 0)` for this activity (threading the shared
`day_done` list) and append `(name, planned, done)` to `per_act`. -/
def stat_act_step (dm : List Completion) (days : List ℤ)
    (acc : List (String × ℕ × ℕ) × List ℕ) (a : Activity) :
    List (String × ℕ × ℕ) × List ℕ :=
  let r := days.foldl (stat_day_step dm a.id a.days_mask) (0, 0, acc.2)
  (acc.1 ++ [(a.name, r.1, r.2.1)], r.2.2)

/-- `StatsTab._calc_range_stats(start_d, end_d)`: returns
`per_act = [(name, planned, done), ...]` in activity order and the shared
`day_done = [0] * 7` accumulation. -/
def calc_range_stats (db : DB) (start_d end_d : ℤ) :
    List (String × ℕ × ℕ) × List ℕ :=
  db.activities.foldl
    (stat_act_step (db_bulk_done_map db start_d end_d) (daterange_list start_d end_d))
    ([], List.replicate 7 0)

/-- `if any(day_done30): mx = max(day_done30); idx = day_done30.index(mx)`
of `StatsTab.load_data`: the first weekday index attaining the maximum
done-count, or no day when all counts are zero (`max` of the list of
naturals is `foldl max 0`; under the `any` guard the list has a nonzero
entry, so the 0 seed is inert). -/
def strongest_day (l : List ℕ) : Option ℕ :=
  if l.any (fun x => x ≠ 0) then some (l.indexOf (l.foldl max 0)) else none

/-- The strongest-day computation of `StatsTab.load_data`: `strongest_day`
of the `day_done` totals over the trailing 30-day window
(`start30 = today - timedelta(days=29)`). -/
def strongest_day_30 (db : DB) (today : ℤ) : Option ℕ :=
  strongest_day (calc_range_stats db (today - 29) today).2

lemma stat_day_fold_le (dm : List Completion) (a_id mask : ℤ) :
    ∀ (days : List ℤ) (acc : ℕ × ℕ × List ℕ), acc.2.1 ≤ acc.1 →
      (days.foldl (stat_day_step dm a_id mask) acc).2.1 ≤
        (days.foldl (stat_day_step dm a_id mask) acc).1 := by
  intro days
  induction days with
  | nil => intro acc h; exact h
  | cons d rest ih =>
    intro acc h
    simp only [List.foldl_cons]
    apply ih
    unfold stat_day_step
    by_cases h1 : mask_has_day mask ((d.emod 7).toNat) = true <;>
      simp only [h1, if_true, if_false, Bool.false_eq_true]
    · by_cases h2 : done_map_get dm a_id d == 1
      · simp only [h2, if_true]
        show acc.2.1 + 1 ≤ acc.1 + 1
        omega
      · simp only [h2, Bool.false_eq_true, if_false]
        show acc.2.1 ≤ acc.1 + 1
        omega
    · exact h

lemma stat_day_fold_len (dm : List Completion) (a_id mask : ℤ) :
    ∀ (days : List ℤ) (acc : ℕ × ℕ × List ℕ),
      ((days.foldl (stat_day_step dm a_id mask) acc).2.2).length = acc.2.2.length := by
  intro days
  induction days with
  | nil => intro acc; rfl
  | cons d rest ih =>
    intro acc
    simp only [List.foldl_cons]
    rw [ih]
    unfold stat_day_step
    by_cases h1 : mask_has_day mask ((d.emod 7).toNat) = true
    · by_cases h2 : done_map_get dm a_id d == 1 <;> simp [h1, h2, List.length_set]
    · simp [h1]

lemma stat_acts_fold_mem (dm : List Completion) (days : List ℤ) :
    ∀ (acts : List Activity) (acc : List (String × ℕ × ℕ) × List ℕ),
      (∀ x ∈ acc.1, x.2.2 ≤ x.2.1) →
      ∀ x ∈ (acts.foldl (stat_act_step dm days) acc).1, x.2.2 ≤ x.2.1 := by
  intro acts
  induction acts with
  | nil => intro acc h; exact h
  | cons a rest ih =>
    intro acc h
    simp only [List.foldl_cons]
    apply ih
    intro x hx
    unfold stat_act_step at hx
    simp only [List.mem_append, List.mem_singleton] at hx
    rcases hx with hx | hx
    · exact h x hx
    · subst hx
      exact stat_day_fold_le dm a.id a.days_mask days (0, 0, acc.2) (Nat.le_refl 0)

lemma stat_acts_fold_len (dm : List Completion) (days : List ℤ) :
    ∀ (acts : List Activity) (acc : List (String × ℕ × ℕ) × List ℕ),
      ((acts.foldl (stat_act_step dm days) acc).2).length = acc.2.length := by
  intro acts
  induction acts with
  | nil => intro acc; rfl
  | cons a rest ih =>
    intro acc
    simp only [List.foldl_cons]
    rw [ih]
    unfold stat_act_step
    exact stat_day_fold_len dm a.id a.days_mask days (0, 0, acc.2)

lemma calc_range_stats_day_done_length (db : DB) (start_d end_d : ℤ) :
    ((calc_range_stats db start_d end_d).2).length = 7 := by
  unfold calc_range_stats
  rw [stat_acts_fold_len]
  simp

/-- **C7.** For every activity row of `range_stats` over any inclusive
range: `done ≤ planned`; when `planned = 0` the reported percentage is `0`
with `done = 0` (no division occurs); when `planned > 0` the percentage is
`round(done / planned * 100)`. -/
theorem range_stats_pct_correct (db : DB) (start_d end_d : ℤ)
    (nm : String) (p dn : ℕ)
    (hmem : (nm, p, dn) ∈ (calc_range_stats db start_d end_d).1) :
    dn ≤ p ∧
    (p = 0 → stats_pct dn p = 0 ∧ dn = 0) ∧
    (p ≠ 0 → stats_pct dn p = pyRound ((dn : ℚ) / (p : ℚ) * 100)) := by
  have hdn : dn ≤ p := by
    have h := stat_acts_fold_mem (db_bulk_done_map db start_d end_d)
      (daterange_list start_d end_d) db.activities ([], List.replicate 7 0)
      (by intro x hx; simp at hx)
    exact h (nm, p, dn) hmem
  refine ⟨hdn, fun h0 => ⟨by simp [stats_pct, h0], by omega⟩,
    fun hne => by simp [stats_pct, hne]⟩

/-- A store with an everyday activity (one completion) and a
never-scheduled activity. -/
def statsDB : DB :=
  ⟨[⟨1, "Run", true, 127, 1⟩, ⟨2, "Swim", true, 0, 2⟩], [⟨1, 95, true⟩]⟩

theorem range_stats_pct_correct_witness :
    ((1 : ℕ) ≤ 2 ∧ stats_pct 1 2 = pyRound ((1 : ℚ) / (2 : ℚ) * 100)) ∧
    (stats_pct 0 0 = 0 ∧ (0 : ℕ) = 0) :=
  ⟨⟨(range_stats_pct_correct statsDB 95 96 "Run" 2 1 (by decide)).1,
    (range_stats_pct_correct statsDB 95 96 "Run" 2 1 (by decide)).2.2 (by decide)⟩,
   (range_stats_pct_correct statsDB 95 96 "Swim" 0 0 (by decide)).2.1 rfl⟩

lemma foldl_max_le (l : List ℕ) :
    ∀ (a : ℕ), (∀ x ∈ l, x ≤ l.foldl max a) ∧ a ≤ l.foldl max a := by
  induction l with
  | nil =>
    intro a
    exact ⟨by simp, le_refl a⟩
  | cons b t ih =>
    intro a
    simp only [List.foldl_cons]
    refine ⟨?_, le_trans (le_max_left a b) (ih (max a b)).2⟩
    intro x hx
    rcases List.mem_cons.mp hx with rfl | hx
    · exact le_trans (le_max_right a x) (ih (max a x)).2
    · exact (ih (max a b)).1 x hx

lemma foldl_max_mem (l : List ℕ) :
    ∀ (a : ℕ), l.foldl max a = a ∨ l.foldl max a ∈ l := by
  induction l with
  | nil => intro a; exact Or.inl rfl
  | cons b t ih =>
    intro a
    simp only [List.foldl_cons]
    rcases ih (max a b) with h | h
    · rw [h]
      rcases max_choice a b with h2 | h2
      · exact Or.inl h2
      · exact Or.inr (by rw [h2]; exact List.mem_cons_self b t)
    · exact Or.inr (List.mem_cons_of_mem b h)

lemma getD_lt_indexOf_ne (l : List ℕ) (a : ℕ) :
    ∀ j, j < l.indexOf a → l.getD j 0 ≠ a := by
  induction l with
  | nil =>
    intro j h
    simp [List.indexOf] at h
  | cons b t ih =>
    intro j h
    by_cases hb : b = a
    · subst hb
      rw [List.indexOf_cons_self] at h
      omega
    · rw [List.indexOf_cons_ne t hb] at h
      cases j with
      | zero => simpa using hb
      | succ j => simpa using ih j (by omega)

lemma getD_indexOf_self (l : List ℕ) (a : ℕ) (h : a ∈ l) :
    l.getD (l.indexOf a) 0 = a := by
  have hlt : l.indexOf a < l.length := List.indexOf_lt_length.mpr h
  rw [List.getD_eq_getElem l 0 hlt]
  exact List.getElem_indexOf hlt

lemma getD_mem_of_lt (l : List ℕ) (j : ℕ) (h : j < l.length) : l.getD j 0 ∈ l := by
  rw [List.getD_eq_getElem l 0 h]
  exact List.getElem_mem h

/-- **C8.** The strongest-day result over the trailing 30-day window: the
`day_done` totals list has one slot per weekday; when every slot is zero no
strongest day is reported; and a reported day is a weekday index whose
done-count is maximal, with every smaller index strictly below it (ties
resolve to the lowest index, Monday-first). -/
theorem strongest_day_correct (db : DB) (today : ℤ) :
    ((calc_range_stats db (today - 29) today).2).length = 7 ∧
    ((∀ j, j < 7 → ((calc_range_stats db (today - 29) today).2).getD j 0 = 0) →
      strongest_day_30 db today = none) ∧
    (∀ i, strongest_day_30 db today = some i →
      i < 7 ∧
      (∀ j, j < 7 → ((calc_range_stats db (today - 29) today).2).getD j 0 ≤
        ((calc_range_stats db (today - 29) today).2).getD i 0) ∧
      (∀ j, j < i → ((calc_range_stats db (today - 29) today).2).getD j 0 <
        ((calc_range_stats db (today - 29) today).2).getD i 0)) := by
  set dd := (calc_range_stats db (today - 29) today).2 with hdd
  have hlen : dd.length = 7 := calc_range_stats_day_done_length db _ _
  refine ⟨hlen, ?_, ?_⟩
  · intro hz
    unfold strongest_day_30 strongest_day
    rw [← hdd, if_neg ?_]
    intro hany
    rw [List.any_eq_true] at hany
    obtain ⟨x, hx, hxne⟩ := hany
    obtain ⟨n, hnl, hget⟩ := List.mem_iff_getElem.mp hx
    have h0 : dd.getD n 0 = 0 := hz n (by omega)
    rw [List.getD_eq_getElem dd 0 hnl, hget] at h0
    simp [h0] at hxne
  · intro i hi
    unfold strongest_day_30 strongest_day at hi
    rw [← hdd] at hi
    by_cases hany : dd.any (fun x => x ≠ 0) = true
    · rw [if_pos hany] at hi
      obtain rfl : dd.indexOf (dd.foldl max 0) = i := Option.some.inj hi
      set M := dd.foldl max 0 with hM
      have hMmem : M ∈ dd := by
        rcases foldl_max_mem dd 0 with h0 | hmem
        · exfalso
          rw [List.any_eq_true] at hany
          obtain ⟨x, hx, hxne⟩ := hany
          have hxle : x ≤ M := (foldl_max_le dd 0).1 x hx
          rw [hM, h0] at hxle
          simp only [ne_eq, decide_eq_true_eq] at hxne
          omega
        · exact hmem
      have hilt : dd.indexOf M < dd.length := List.indexOf_lt_length.mpr hMmem
      have hgetI : dd.getD (dd.indexOf M) 0 = M := getD_indexOf_self dd M hMmem
      refine ⟨by omega, ?_, ?_⟩
      · intro j hj
        rw [hgetI]
        exact (foldl_max_le dd 0).1 _ (getD_mem_of_lt dd j (by omega))
      · intro j hj
        have hne := getD_lt_indexOf_ne dd M j hj
        have hle : dd.getD j 0 ≤ M :=
          (foldl_max_le dd 0).1 _ (getD_mem_of_lt dd j (by omega))
        rw [hgetI]
        omega
    · rw [if_neg hany] at hi
      cases hi

theorem strongest_day_correct_witness :
    ((calc_range_stats statsDB (100 - 29) 100).2).getD 2 0 <
      ((calc_range_stats statsDB (100 - 29) 100).2).getD 4 0 ∧
    strongest_day_30 (DB.mk [⟨1, "Walk", true, 127, 1⟩] []) 100 = none :=
  ⟨((strongest_day_correct statsDB 100).2.2 4 (by decide)).2.2 2 (by decide),
   (strongest_day_correct (DB.mk [⟨1, "Walk", true, 127, 1⟩] []) 100).2.1 (by decide)⟩
